import Mathlib

/- Verification of the MGost synchronizer: a shallow embedding of the
   reconciliation engine (src/mgost/mgost/sync.py) and of the API
   collaborator (src/mgost/api/api.py), with theorems checking the
   specification's claims against it. -/

namespace MGostVerif

/- Paths are modelled as lists of components, mirroring pathlib.PurePath
   semantics: the last component is the name and equality is componentwise. -/
abbrev FPath := List String

/-- Model of pathlib's Path.name: the final component, empty for an empty path. -/
def pathName (p : FPath) : String := p.getLastD ""

/-- Model of str.startswith applied to the hidden-file marker: whether the
string's first character is a dot. -/
def startsWithDot (s : String) : Bool :=
  match s.toList with
  | c :: _ => c = '.'
  | [] => false

/-- Model of pathlib's suffix property on a file name: the substring from the
last dot onward, provided that dot is neither the first nor the last
character (CPython: i = name.rfind of the dot; return name[i:] if
0 < i < len(name) - 1 else the empty string). -/
def strSuffix (name : String) : String :=
  let cs := name.toList
  match cs.reverse.findIdx? (fun c => c = '.') with
  | none => ""
  | some j =>
    let i := cs.length - 1 - j
    if 0 < i ∧ i < cs.length - 1 then String.mk (cs.drop i) else ""

/-- Model of an os.stat_result as used by sync.py: birth time, modification
time and size. Timestamps are modelled as abstract instants (integers);
timezone-aware datetimes compare by instant, so normalizing to the local
timezone preserves order and equality. -/
structure FileStat where
  st_birthtime : Int
  st_mtime : Int
  st_size : Nat
deriving DecidableEq, Repr

/-- A node of the local directory tree rooted at the MGost root path. -/
inductive Entry where
  | file (name : String) (stat : FileStat)
  | dir (name : String) (children : List Entry)

/-- Regular files among a directory's children, in listing order, as
(name, stat) pairs — the filenames component of an os.walk item. -/
def filesOf (es : List Entry) : List (String × FileStat) :=
  es.filterMap fun e => match e with
    | .file n st => some (n, st)
    | .dir _ _ => none

mutual

/-- Model of pathlib's Path.walk (top-down): for each directory of the
subtree, in depth-first preorder, yield the directory's path together with
its regular files. Note that walk visits every directory: sync.py's loop
skips a hidden directory's own item by a continue, which does not prune the
walk below it. -/
def Entry.walk (parent : FPath) : Entry → List (FPath × List (String × FileStat))
  | .file _ _ => []
  | .dir n cs => (parent ++ [n], filesOf cs) :: walkChildren (parent ++ [n]) cs

/-- Walk items contributed by a list of sibling entries, in listing order. -/
def walkChildren (dirPath : FPath) : List Entry → List (FPath × List (String × FileStat))
  | [] => []
  | e :: es => Entry.walk dirPath e ++ walkChildren dirPath es

end

/-- Embedding of sync.py's compare_file_to predicate (there written with a
leading underscore): given a candidate's name and stat and the optional
filename / birth-time / size hints, decide whether the candidate matches.
Mirrors the source: the filename branch fires when a filename hint is given
and the names are equal; inside it, if the candidate's suffix is not in the
literal set of the strings md, docx, xlsx it accepts unconditionally
(pathlib suffixes carry a leading dot, so membership in that dotless set is
never true), otherwise it compares the candidate's suffix with the hint's
suffix. Failing the filename branch, equality of birth time and then of
size each accept. -/
def compare_file_to (name : String) (stat : FileStat)
    (filename : Option String) (birth_time : Option Int) (size : Option Nat) : Bool :=
  if (match filename with | some f => name == f | none => false) then
    if !(["md", "docx", "xlsx"].contains (strSuffix name)) then true
    else strSuffix name == strSuffix (filename.getD "")
  else if (match birth_time with | some b => stat.st_birthtime == b | none => false) then true
  else if (match size with | some s => stat.st_size == s | none => false) then true
  else false

/-- First file of a directory listing accepted by compare_file_to, as a full
path (directory path plus file name). -/
def firstMatchIn (dirPath : FPath) (files : List (String × FileStat))
    (filename : Option String) (birth_time : Option Int) (size : Option Nat) : Option FPath :=
  match files with
  | [] => none
  | (n, st) :: rest =>
    if compare_file_to n st filename birth_time size then some (dirPath ++ [n])
    else firstMatchIn dirPath rest filename birth_time size

/-- Embedding of the loop body of sync.py's search_file: iterate over the
walk items; skip an item whose directory name starts with a dot (the
continue in the source); otherwise return the first matching file of that
directory; return none when the walk is exhausted. -/
def searchWalk (items : List (FPath × List (String × FileStat)))
    (filename : Option String) (birth_time : Option Int) (size : Option Nat) : Option FPath :=
  match items with
  | [] => none
  | (dirPath, files) :: rest =>
    if startsWithDot (pathName dirPath) then searchWalk rest filename birth_time size
    else
      match firstMatchIn dirPath files filename birth_time size with
      | some p => some p
      | none => searchWalk rest filename birth_time size

/-- Embedding of sync.py's search_file (there written with a leading
underscore): walk the tree rooted at the root directory (whose own walk item
comes first, as with Path.walk) and return the first candidate accepted by
compare_file_to, skipping items of directories whose name starts with a
dot. -/
def search_file (rootName : String) (rootChildren : List Entry)
    (filename : Option String) (birth_time : Option Int) (size : Option Nat) : Option FPath :=
  searchWalk ((Entry.dir rootName rootChildren).walk []) filename birth_time size

/-- Remote file record of a project manifest as used by sync.py
(attributes created, size, modified of the entries of
api.project_files). The schemas module defining it is not part of the
sources here; its fields are those the sync code reads, matching the
spec's RemoteFileRecord of path, size, created and modified. -/
structure ProjectFile where
  size : Nat
  created : Int
  modified : Int
deriving DecidableEq, Repr

/-- Embedding of the action model of api/actions.py: the closed set of
action variants produced by the reconciler, each carrying its execution
parameters. -/
inductive Action where
  | doNothing
  | uploadFile (projectId : Nat) (path : FPath) (overwrite : Bool)
  | downloadFile (projectId : Nat) (path : FPath) (overwriteOk : Bool)
  | fileMovedLocally (projectId : Nat) (path : FPath) (newPath : FPath)
deriving DecidableEq, Repr

/-- Error raised by sync_file when a path exists neither locally nor in the
cloud and no same-named file is found. -/
inductive SyncErr where
  | fileNotFound
deriving DecidableEq, Repr

/-- Association-list lookup by path. -/
def lookupPath {α : Type} : List (FPath × α) → FPath → Option α
  | [], _ => none
  | (k, v) :: rest, key => if k = key then some v else lookupPath rest key

/-- State sync_file reads: the root directory (name and children) that
search_file walks, the stat of local paths (none models a path for which
exists() is false), and the remote manifest returned by
api.project_files for the project being synced. -/
structure MGostState where
  rootName : String
  rootChildren : List Entry
  localStat : List (FPath × FileStat)
  projectFiles : List (FPath × ProjectFile)

/-- Embedding of sync.py's sync_file: branch on local existence and
manifest membership. Local only: upload without overwrite. Cloud only:
search locally with filename, birth-time and size hints from the remote
record; a hit is a local move, otherwise download without overwrite.
Both: compare the remote modified instant with the local mtime instant
(both sides are timezone-aware datetimes normalized to the local system
timezone in the source, so the comparison is a comparison of instants);
strictly newer remote downloads with overwrite, strictly newer local
uploads with overwrite, equality does nothing. Neither: search locally by
filename only; a hit is a local move, otherwise FileNotFoundError. -/
def sync_file (m : MGostState) (projectId : Nat) (path : FPath) : Except SyncErr Action :=
  match lookupPath m.localStat path, lookupPath m.projectFiles path with
  | some _, none => .ok (.uploadFile projectId path false)
  | none, some pf =>
    match search_file m.rootName m.rootChildren
        (some (pathName path)) (some pf.created) (some pf.size) with
    | none => .ok (.downloadFile projectId path false)
    | some newPath => .ok (.fileMovedLocally projectId path newPath)
  | some st, some pf =>
    if pf.modified > st.st_mtime then .ok (.downloadFile projectId path true)
    else if pf.modified < st.st_mtime then .ok (.uploadFile projectId path true)
    else .ok .doNothing
  | none, none =>
    match search_file m.rootName m.rootChildren (some (pathName path)) none none with
    | none => .error .fileNotFound
    | some newPath => .ok (.fileMovedLocally projectId path newPath)

/- Concurrent execution phase of sync.py's sync: every reconciled action is
submitted to a bounded thread pool, every future is awaited through
as_completed, and a failing execution is recorded together with its action
instead of aborting the batch. Each task touches only its own result, so
the batch is modelled as executing each action once, in an arbitrary
completion order (a permutation of the submitted list), with an execution
effect returning either unit or a captured error. -/

/-- Failures collected by the fan-in loop of sync: the (action, error)
pairs, in completion order, of exactly the executions that raised. -/
def runBatchFailures (exec : Action → Except String Unit)
    (order : List Action) : List (Action × String) :=
  order.filterMap fun a => match exec a with
    | .error e => some (a, e)
    | .ok _ => none

/-- Executions of the batch that completed without raising. -/
def runBatchSuccesses (exec : Action → Except String Unit)
    (order : List Action) : List Action :=
  order.filter fun a => match exec a with
    | .error _ => false
    | .ok _ => true

namespace Api

/- Embedding of the API collaborator (src/mgost/api/api.py, class
ArtichaAPI). The HTTP transport is abstracted as a server function from the
index of the network request (a running counter) and the request key to the
response; the response carries its status code, the optional detail field
of its JSON body (none models both a JSON body without detail and a
non-JSON body) and its byte content. -/

/-- An HTTP response as _method inspects it. -/
structure Response where
  status : Nat
  detail : Option String
  content : String
deriving DecidableEq, Repr

/-- The cache key of _method: the (method, url, params, files) tuple, with
query params rendered as an ordered key-value list and the files argument
as an optional label. -/
structure ReqKey where
  method : String
  url : String
  params : Option (List (String × String))
  files : Option String
deriving DecidableEq, Repr

/-- Mutable state of an ArtichaAPI instance: whether the client is still
open, the response cache, and (for the model) the count of network
requests issued so far, which also serves as the index fed to the server
function. -/
structure ApiState where
  clientOpen : Bool
  cache : List (ReqKey × Response)
  nreq : Nat
deriving DecidableEq, Repr

/-- Exceptions of the api module (APIRequestError, ClientClosed, the
builtin file errors raised by upload and download, and HTTPStatusError
from raise_for_status). An error is paired with the state at raise time. -/
inductive ApiError where
  | requestError (detail : String)
  | clientClosed
  | fileNotFound
  | fileExists
  | isADirectory
  | httpStatusError (status : Nat)
deriving DecidableEq, Repr

/-- Cache lookup, first binding wins. -/
def lookupCache : List (ReqKey × Response) → ReqKey → Option Response
  | [], _ => none
  | (k, v) :: rest, key => if k = key then some v else lookupCache rest key

/-- Cache store. The source assigns into a dict; _method only stores a key
it found absent, so appending is faithful there. -/
def insertCache (c : List (ReqKey × Response)) (k : ReqKey) (v : Response) :
    List (ReqKey × Response) :=
  c ++ [(k, v)]

/-- Embedding of the rate-limit while loop of _method: while the response
status is 429, re-issue the request and increment the counter; as soon as
the counter exceeds 2, return the last response directly (the early-return
flag), skipping the detail check and the cache store. The source loop runs
at most three iterations (counters 1, 2, 3); the fuel argument is always
called with 3, which the counter bound never exhausts, so the fuel-zero
case (returning early like the counter bound) is unreachable from
method_. -/
def rateLoop (server : Nat → ReqKey → Response) (key : ReqKey) :
    Nat → Nat → Response → ApiState → Response × ApiState × Bool
  | fuel, counter, resp, st =>
    if resp.status = 429 then
      let resp2 := server st.nreq key
      let st2 := { st with nreq := st.nreq + 1 }
      if counter + 1 > 2 then (resp2, st2, true)
      else match fuel with
        | 0 => (resp2, st2, true)
        | fuel' + 1 => rateLoop server key fuel' (counter + 1) resp2 st2
    else (resp, st, false)

/-- Embedding of ArtichaAPI's _method: serve from the cache when the key is
present; otherwise require an open client, issue the request, run the
rate-limit retry loop, and, unless the loop gave up early, raise
APIRequestError when the JSON body has a detail field and cache the
response otherwise. -/
def method_ (server : Nat → ReqKey → Response) (st : ApiState) (key : ReqKey) :
    Except (ApiError × ApiState) (Response × ApiState) :=
  match lookupCache st.cache key with
  | some v => .ok (v, st)
  | none =>
    if st.clientOpen = false then .error (.clientClosed, st)
    else
      match rateLoop server key 3 0 (server st.nreq key) { st with nreq := st.nreq + 1 } with
      | (resp2, st2, true) => .ok (resp2, st2)
      | (resp2, st2, false) =>
        match resp2.detail with
        | some d => .error (.requestError d, st2)
        | none => .ok (resp2, { st2 with cache := insertCache st2.cache key resp2 })

/-- A regular local file as the api module reads and writes it. -/
structure LocalFile where
  content : String
  st_atime : Int
  st_mtime : Int
deriving DecidableEq, Repr

/-- A local filesystem node: a regular file or a directory. -/
inductive FsNode where
  | file (lf : LocalFile)
  | directory
deriving DecidableEq, Repr

/-- The local filesystem as a path-to-node map; absence models a
non-existing path. -/
abbrev LocalFS := List (FPath × FsNode)

/-- Whether the path exists and is a regular file (path.exists() and
path.is_file()). -/
def isLocalFile (fs : LocalFS) (path : FPath) : Bool :=
  match MGostVerif.lookupPath fs path with
  | some (.file _) => true
  | _ => false

/-- Replace the binding of a path, or append it when absent. -/
def insertFs (fs : LocalFS) (path : FPath) (node : FsNode) : LocalFS :=
  match fs with
  | [] => [(path, node)]
  | (k, v) :: rest =>
    if k = path then (k, node) :: rest else (k, v) :: insertFs rest path node

/-- The remote side of download, collapsed to a manifest with the byte
content the GET returns and the modified instant the project_files record
reports. -/
structure RemoteEntry where
  content : String
  modified : Int
deriving DecidableEq, Repr

/-- Effect on a file of opening it for writing: truncate an existing file
and bump its mtime, or create a fresh empty file. The second component is
the resulting file record. -/
def openWb (fs : LocalFS) (path : FPath) (now : Int) : LocalFS × LocalFile :=
  match MGostVerif.lookupPath fs path with
  | some (.file lf) =>
    let lf2 : LocalFile := { lf with content := "", st_mtime := now }
    (insertFs fs path (.file lf2), lf2)
  | _ =>
    let lf : LocalFile := { content := "", st_atime := now, st_mtime := now }
    (insertFs fs path (.file lf), lf)

/-- Embedding of ArtichaAPI.download: raise FileExistsError, before
touching anything, when the path exists and overwrite is not permitted;
raise IsADirectoryError when the open for writing hits a directory;
otherwise open the target for writing (truncating), fetch the remote
bytes and write them, then re-read the access time and set the file's
times to (that access time, the remote record's modified instant) with
utime — so the modification time becomes the remote one and the access
time is preserved. A path absent remotely is the case where the source
would fail while fetching or at the manifest lookup, after the target was
already opened for writing: modelled as a request error carrying the
truncated filesystem. -/
def download (fs : LocalFS) (remote : List (FPath × RemoteEntry))
    (path : FPath) (overwrite_ok : Bool) (now : Int) :
    Except (ApiError × LocalFS) LocalFS :=
  if (MGostVerif.lookupPath fs path).isSome && !overwrite_ok then
    .error (.fileExists, fs)
  else
    match MGostVerif.lookupPath fs path with
    | some .directory => .error (.isADirectory, fs)
    | _ =>
      let opened := openWb fs path now
      match MGostVerif.lookupPath remote path with
      | none => .error (.requestError "file fetch failed", opened.1)
      | some r =>
        let lf2 : LocalFile := { opened.2 with content := r.content, st_mtime := now }
        let fs2 := insertFs opened.1 path (.file lf2)
        let accessTime := lf2.st_atime
        let lf3 : LocalFile := { lf2 with st_atime := accessTime, st_mtime := r.modified }
        .ok (insertFs fs2 path (.file lf3))

/-- Path rendered as a string for URLs and parameters. -/
def pathStr (p : FPath) : String := String.intercalate "/" p

/-- The request key upload builds (the local variables params and key of
the source): a POST to the file's URL when overwriting, a PUT to the
project files URL with an extra path parameter otherwise, both carrying
the project id and the local mtime. -/
def uploadKey (projectId : Nat) (path : FPath) (overwrite : Bool)
    (lf : LocalFile) : ReqKey :=
  if overwrite then
    { method := "POST",
      url := "/mgost/project/" ++ toString projectId ++ "/files/" ++ pathStr path,
      params := some [("project_id", toString projectId),
                      ("modify_time", toString lf.st_mtime)],
      files := some (pathStr path) }
  else
    { method := "PUT",
      url := "/mgost/project/" ++ toString projectId ++ "/files",
      params := some [("project_id", toString projectId),
                      ("modify_time", toString lf.st_mtime),
                      ("path", pathStr path)],
      files := some (pathStr path) }

/-- Embedding of ArtichaAPI.upload: raise FileNotFoundError unless the
local path exists and is a regular file; otherwise send the file with the
request key built by uploadKey and clear the whole cache on the way
out. -/
def upload (server : Nat → ReqKey → Response) (st : ApiState) (fs : LocalFS)
    (projectId : Nat) (path : FPath) (overwrite : Bool) :
    Except (ApiError × ApiState) ApiState :=
  match MGostVerif.lookupPath fs path with
  | some (.file lf) =>
    match method_ server st (uploadKey projectId path overwrite lf) with
    | .error e => .error e
    | .ok (_, st1) => .ok { st1 with cache := [] }
  | _ => .error (.fileNotFound, st)

/-- Embedding of ArtichaAPI.move_on_cloud: PATCH the old path's file URL
with the target parameter, clear the whole cache, and report whether the
response message is ok (the Message schema is absent from the sources, so
the body test is an abstract parameter). -/
def move_on_cloud (server : Nat → ReqKey → Response) (isOk : Response → Bool)
    (st : ApiState) (projectId : Nat) (oldPath newPath : FPath) :
    Except (ApiError × ApiState) (Bool × ApiState) :=
  match method_ server st
      { method := "PATCH",
        url := "/mgost/project/" ++ toString projectId ++ "/files/" ++ pathStr oldPath,
        params := some [("target", pathStr newPath)],
        files := none } with
  | .error e => .error e
  | .ok (resp, st1) => .ok (isOk resp, { st1 with cache := [] })

/-- Embedding of ArtichaAPI.create_project: PUT the project URL with the
project name, clear the whole cache, and return the response (the id
extraction from the JSON body is outside the model). -/
def create_project (server : Nat → ReqKey → Response) (st : ApiState)
    (name : String) :
    Except (ApiError × ApiState) (Response × ApiState) :=
  match method_ server st
      { method := "PUT",
        url := "/mgost/project",
        params := some [("project_name", name)],
        files := none } with
  | .error e => .error e
  | .ok (resp, st1) => .ok (resp, { st1 with cache := [] })

/-- Embedding of ArtichaAPI.render: GET the render URL, raise
HTTPStatusError for a non-2xx status, and clear the whole cache before
returning the response. -/
def render (server : Nat → ReqKey → Response) (st : ApiState)
    (projectId : Nat) :
    Except (ApiError × ApiState) (Response × ApiState) :=
  match method_ server st
      { method := "GET",
        url := "/mgost/project/" ++ toString projectId ++ "/render",
        params := none,
        files := none } with
  | .error e => .error e
  | .ok (resp, st1) =>
    if 200 ≤ resp.status ∧ resp.status < 300 then .ok (resp, { st1 with cache := [] })
    else .error (.httpStatusError resp.status, st1)

end Api

/-- A concrete server answering every request with a plain 200 response,
for exercising the api model. -/
def serverOkW : Nat → Api.ReqKey → Api.Response := fun _ _ => ⟨200, none, "body"⟩

/-- A concrete read request key, as project_files issues it. -/
def keyW : Api.ReqKey := ⟨"GET", "/mgost/project/5/files", none, none⟩

/-- The response serverOkW gives. -/
def respW : Api.Response := ⟨200, none, "body"⟩

/-- A fresh collaborator state: open client, empty cache, no requests. -/
def stW : Api.ApiState := ⟨true, [], 0⟩

/-- A one-file local filesystem for exercising upload. -/
def fsW : Api.LocalFS := [(["a.md"], .file ⟨"bytes", 1, 2⟩)]

/-- A concrete execution effect for exercising the batch model: remote
errors on upload actions, success on everything else. -/
def batchExec : Action → Except String Unit := fun a =>
  match a with
  | .uploadFile _ _ _ => .error "remote error"
  | _ => .ok ()

/-- A concrete batch of ten reconciled actions of which exactly two (the
upload actions) fail under batchExec. -/
def batchActions : List Action :=
  [.doNothing,
   .downloadFile 1 ["f1"] true,
   .doNothing,
   .uploadFile 1 ["f4"] false,
   .fileMovedLocally 1 ["f5"] ["g5"],
   .doNothing,
   .uploadFile 1 ["f7"] true,
   .downloadFile 1 ["f8"] false,
   .doNothing,
   .doNothing]

end MGostVerif

namespace MGostVerif

/-- A hit of firstMatchIn is one of the directory's own files: the result
is the directory path extended by a single file name. -/
theorem firstMatchIn_shape (dirPath : FPath)
    (filename : Option String) (birth_time : Option Int) (size : Option Nat) :
    ∀ files q, firstMatchIn dirPath files filename birth_time size = some q →
      ∃ n, q = dirPath ++ [n] := by
  intro files
  induction files with
  | nil => intro q hq; cases hq
  | cons f rest ih =>
    intro q hq
    obtain ⟨n, st⟩ := f
    unfold firstMatchIn at hq
    by_cases hc : compare_file_to n st filename birth_time size = true
    · rw [if_pos hc] at hq
      exact ⟨n, (Option.some.injEq .. |>.mp hq).symm⟩
    · rw [if_neg hc] at hq
      exact ih q hq

/-- A path returned by the walk scan always lies directly in a directory
whose own name does not start with a dot: the scan skips the items of
dot-named directories before testing their files. -/
theorem searchWalk_parent_not_hidden
    (filename : Option String) (birth_time : Option Int) (size : Option Nat) :
    ∀ items p, searchWalk items filename birth_time size = some p →
      startsWithDot (pathName p.dropLast) = false := by
  intro items
  induction items with
  | nil => intro p hp; cases hp
  | cons item rest ih =>
    intro p hp
    obtain ⟨dirPath, files⟩ := item
    unfold searchWalk at hp
    by_cases hd : startsWithDot (pathName dirPath) = true
    · rw [if_pos hd] at hp
      exact ih p hp
    · rw [if_neg hd] at hp
      cases hm : firstMatchIn dirPath files filename birth_time size with
      | some q =>
        rw [hm] at hp
        obtain ⟨n, hn⟩ := firstMatchIn_shape dirPath filename birth_time size files q hm
        have hpq : p = q := (Option.some.injEq .. |>.mp hp).symm
        subst hpq
        subst hn
        have hdl : (dirPath ++ [n]).dropLast = dirPath := by simp
        rw [hdl]
        exact Bool.not_eq_true _ ▸ hd
      | none =>
        rw [hm] at hp
        exact ih p hp

/-- C5 (amended): for every root and every combination of
filename/birth-time/size hints, a path returned by the file matcher never
lies directly inside a directory whose name starts with the hidden-file
marker: the immediate parent directory's name never starts with a dot.
(The original claim — that no ancestor directory under the root is
dot-named — fails: the walk skips a hidden directory's own item but still
descends into its subdirectories; see the counterexample.) -/
theorem c5_matcher_parent_never_hidden (rootName : String) (rootChildren : List Entry)
    (filename : Option String) (birth_time : Option Int) (size : Option Nat)
    (p : FPath)
    (h : search_file rootName rootChildren filename birth_time size = some p) :
    startsWithDot (pathName p.dropLast) = false :=
  searchWalk_parent_not_hidden filename birth_time size _ p h

/-- Witness for the amended C5 at a concrete tree: the matcher finds
docs/n.txt and its immediate parent docs is not dot-named. -/
theorem c5_matcher_parent_never_hidden_witness :
    startsWithDot (pathName (["root", "docs", "n.txt"] : FPath).dropLast) = false :=
  c5_matcher_parent_never_hidden "root"
    [.dir "docs" [.file "n.txt" ⟨0, 0, 0⟩]]
    (some "n.txt") none none ["root", "docs", "n.txt"] (by decide)

/-- Counterexample to C5 as stated: with a file target.txt inside
root/.hidden/sub, the matcher returns a path one of whose ancestor
directories under the root (.hidden) is dot-named — the walk's skip of the
hidden directory's own item does not prune the walk of its subtree. -/
theorem c5_counterexample :
    search_file "root" [.dir ".hidden" [.dir "sub" [.file "target.txt" ⟨0, 0, 0⟩]]]
      (some "target.txt") none none
      = some ["root", ".hidden", "sub", "target.txt"]
    ∧ ".hidden" ∈ (["root", ".hidden", "sub", "target.txt"] : FPath).dropLast.drop 1
    ∧ startsWithDot ".hidden" = true := by
  decide

/-- Looking up the path just written by insertFs yields the new node. -/
theorem lookupPath_insertFs_self (fs : Api.LocalFS) (path : FPath) (node : Api.FsNode) :
    lookupPath (Api.insertFs fs path node) path = some node := by
  induction fs with
  | nil => simp [Api.insertFs, lookupPath]
  | cons kv rest ih =>
    obtain ⟨k, v⟩ := kv
    unfold Api.insertFs
    by_cases hk : k = path
    · rw [if_pos hk]
      simp [lookupPath, hk]
    · rw [if_neg hk]
      simp [lookupPath, hk, ih]

/-- insertFs changes no binding other than the written path's. -/
theorem lookupPath_insertFs_other (fs : Api.LocalFS) (path q : FPath)
    (node : Api.FsNode) (hq : q ≠ path) :
    lookupPath (Api.insertFs fs path node) q = lookupPath fs q := by
  induction fs with
  | nil =>
    have : path ≠ q := fun h => hq h.symm
    simp [Api.insertFs, lookupPath, this]
  | cons kv rest ih =>
    obtain ⟨k, v⟩ := kv
    unfold Api.insertFs
    by_cases hk : k = path
    · rw [if_pos hk]
      have hkq : k ≠ q := fun h => hq (h ▸ hk)
      simp [lookupPath, hkq]
    · rw [if_neg hk]
      by_cases hkq : k = q
      · simp [lookupPath, hkq]
      · simp [lookupPath, hkq, ih]

/-- C1: for a path present both locally and in the remote manifest,
sync_file compares the remote modified instant with the local mtime
instant (timezone-aware values normalized to the local system timezone
compare as instants): a strictly newer remote yields a download with
overwrite permitted, a strictly newer local yields an upload with
overwrite, and the no-op is produced exactly when the two instants are
equal, with no tolerance window. -/
theorem c1_both_sides_timestamp_rule (m : MGostState) (pid : Nat) (path : FPath)
    (st : FileStat) (pf : ProjectFile)
    (hl : lookupPath m.localStat path = some st)
    (hc : lookupPath m.projectFiles path = some pf) :
    (pf.modified > st.st_mtime →
      sync_file m pid path = .ok (.downloadFile pid path true))
    ∧ (st.st_mtime > pf.modified →
      sync_file m pid path = .ok (.uploadFile pid path true))
    ∧ (sync_file m pid path = .ok .doNothing ↔ pf.modified = st.st_mtime) := by
  unfold sync_file
  rw [hl, hc]
  refine ⟨?_, ?_, ?_⟩
  · intro h
    simp [h]
  · intro h
    have h1 : ¬ pf.modified > st.st_mtime := by omega
    have h2 : pf.modified < st.st_mtime := by omega
    simp [h1, h2]
  · constructor
    · intro h
      rcases lt_trichotomy pf.modified st.st_mtime with h1 | h1 | h1
      · have h2 : ¬ pf.modified > st.st_mtime := by omega
        simp [h1, h2] at h
      · exact h1
      · simp [h1] at h
    · intro h
      have h1 : ¬ pf.modified > st.st_mtime := by omega
      have h2 : ¬ pf.modified < st.st_mtime := by omega
      simp [h1, h2]

/-- Witness for C1 at a concrete state: remote modified 7 against local
mtime 5 yields a download with overwrite permitted. -/
theorem c1_both_sides_timestamp_rule_witness :
    sync_file ⟨"root", [], [(["a.md"], ⟨0, 5, 1⟩)], [(["a.md"], ⟨1, 0, 7⟩)]⟩ 1 ["a.md"]
      = .ok (.downloadFile 1 ["a.md"] true) :=
  (c1_both_sides_timestamp_rule _ 1 ["a.md"] ⟨0, 5, 1⟩ ⟨1, 0, 7⟩
    (by decide) (by decide)).1 (by decide)

/-- C2: for a path absent locally but present in the remote manifest,
sync_file runs the file matcher over the root with the remote record's
created instant as the birth-time hint, its size as the size hint and the
path's base name as the filename hint; a found path yields the
moved-locally action and no candidate yields a download without
overwrite. -/
theorem c2_cloud_only_rule (m : MGostState) (pid : Nat) (path : FPath)
    (pf : ProjectFile)
    (hl : lookupPath m.localStat path = none)
    (hc : lookupPath m.projectFiles path = some pf) :
    (∀ q, search_file m.rootName m.rootChildren
        (some (pathName path)) (some pf.created) (some pf.size) = some q →
      sync_file m pid path = .ok (.fileMovedLocally pid path q))
    ∧ (search_file m.rootName m.rootChildren
        (some (pathName path)) (some pf.created) (some pf.size) = none →
      sync_file m pid path = .ok (.downloadFile pid path false)) := by
  unfold sync_file
  rw [hl, hc]
  constructor
  · intro q hq
    simp [hq]
  · intro hq
    simp [hq]

/-- Witness for C2 at a concrete state: the manifest lists b.md, the local
tree holds a same-named file, so the matcher finds it and sync_file yields
the moved-locally action; the hints are the record's created instant 3 and
size 5 with filename b.md. -/
theorem c2_cloud_only_rule_witness :
    sync_file ⟨"root", [.file "b.md" ⟨3, 4, 5⟩], [], [(["b.md"], ⟨5, 3, 9⟩)]⟩ 1 ["b.md"]
      = .ok (.fileMovedLocally 1 ["b.md"] ["root", "b.md"]) :=
  (c2_cloud_only_rule _ 1 ["b.md"] ⟨5, 3, 9⟩ (by decide) (by decide)).1
    ["root", "b.md"] (by decide)

/-- C4: for a path absent both locally and in the remote manifest,
sync_file runs the file matcher with only the path's base name as hint (no
birth-time or size hint); a found path yields the moved-locally action and
no candidate fails with FileNotFoundError. -/
theorem c4_absent_both_rule (m : MGostState) (pid : Nat) (path : FPath)
    (hl : lookupPath m.localStat path = none)
    (hc : lookupPath m.projectFiles path = none) :
    (∀ q, search_file m.rootName m.rootChildren
        (some (pathName path)) none none = some q →
      sync_file m pid path = .ok (.fileMovedLocally pid path q))
    ∧ (search_file m.rootName m.rootChildren
        (some (pathName path)) none none = none →
      sync_file m pid path = .error .fileNotFound) := by
  unfold sync_file
  rw [hl, hc]
  constructor
  · intro q hq
    simp [hq]
  · intro hq
    simp [hq]

/-- Witness for C4 at a concrete state: nothing local, nothing remote and
an empty tree, so sync_file fails with FileNotFoundError. -/
theorem c4_absent_both_rule_witness :
    sync_file ⟨"root", [], [], []⟩ 1 ["missing.md"] = .error .fileNotFound :=
  (c4_absent_both_rule _ 1 ["missing.md"] (by decide) (by decide)).2 (by decide)

/-- C6: for a candidate whose base name equals the filename hint, the
per-file test accepts unconditionally when the candidate's extension (its
suffix without the leading dot) is not one of md, docx, xlsx, and when the
extension is in that set it accepts exactly when the candidate's extension
equals the hint's extension. (Equal names force equal extensions, and the
source compares the dotted suffix against the dotless set, so the test in
fact accepts every same-named candidate; both clauses hold.) -/
theorem c6_variable_suffix_rule (name f : String) (stat : FileStat)
    (birth_time : Option Int) (size : Option Nat)
    (hname : name = f) :
    ((strSuffix name).drop 1 ∉ (["md", "docx", "xlsx"] : List String) →
      compare_file_to name stat (some f) birth_time size = true)
    ∧ ((strSuffix name).drop 1 ∈ (["md", "docx", "xlsx"] : List String) →
      (compare_file_to name stat (some f) birth_time size = true ↔
        (strSuffix name).drop 1 = (strSuffix f).drop 1)) := by
  subst hname
  have hc : compare_file_to name stat (some name) birth_time size = true := by
    unfold compare_file_to
    simp only [Option.getD_some, beq_self_eq_true, if_true]
    split <;> simp
  exact ⟨fun _ => hc, fun _ => ⟨fun _ => rfl, fun _ => hc⟩⟩

/-- Witness for C6: the candidate a.md against the hint a.md has extension
md, inside the variable-suffix set, and is accepted with equal
extensions. -/
theorem c6_variable_suffix_rule_witness :
    compare_file_to "a.md" ⟨0, 0, 0⟩ (some "a.md") none none = true :=
  ((c6_variable_suffix_rule "a.md" "a.md" ⟨0, 0, 0⟩ none none rfl).2
    (by decide)).mpr (by decide)

/-- C7: executing a download raises FileExistsError exactly when the local
target exists and overwriting is not permitted, and in that case the local
filesystem is untouched (the error carries the original filesystem);
otherwise, for a path the remote knows, the remote bytes are written to
the local path, whose modification time is then set to the remote record's
modified instant while its access time is preserved (the pre-existing
file's access time, or the creation instant for a fresh file), and no
other local path changes. -/
theorem c7_download_file_exists_rule (fs : Api.LocalFS)
    (remote : List (FPath × Api.RemoteEntry))
    (path : FPath) (overwrite_ok : Bool) (now : Int) :
    (Api.download fs remote path overwrite_ok now = .error (.fileExists, fs)
      ↔ ((lookupPath fs path).isSome = true ∧ overwrite_ok = false))
    ∧ (∀ r, lookupPath remote path = some r →
        ¬((lookupPath fs path).isSome = true ∧ overwrite_ok = false) →
        lookupPath fs path ≠ some .directory →
        ∃ fs' lf, Api.download fs remote path overwrite_ok now = .ok fs'
          ∧ lookupPath fs' path = some (.file lf)
          ∧ lf.content = r.content
          ∧ lf.st_mtime = r.modified
          ∧ lf.st_atime = (match lookupPath fs path with
              | some (.file old) => old.st_atime
              | _ => now)
          ∧ ∀ q, q ≠ path → lookupPath fs' q = lookupPath fs q) := by
  constructor
  · by_cases hc : ((lookupPath fs path).isSome && !overwrite_ok) = true
    · unfold Api.download
      rw [if_pos hc]
      simp only [Bool.and_eq_true, Bool.not_eq_true'] at hc
      simp [hc]
    · unfold Api.download
      rw [if_neg hc]
      have hrhs : ¬((lookupPath fs path).isSome = true ∧ overwrite_ok = false) := by
        rintro ⟨h1, h2⟩
        exact hc (by simp [h1, h2])
      constructor
      · intro hL
        exfalso
        rcases hfs : lookupPath fs path with _ | node
        · rw [hfs] at hL
          rcases hrem : lookupPath remote path with _ | r <;>
            simp [Api.openWb, hfs, hrem] at hL
        · cases node with
          | directory =>
            rw [hfs] at hL
            simp at hL
          | file lf =>
            rw [hfs] at hL
            rcases hrem : lookupPath remote path with _ | r <;>
              simp [Api.openWb, hfs, hrem] at hL
      · intro h
        exact absurd h hrhs
  · intro r hr hno hdir
    have hc : ((lookupPath fs path).isSome && !overwrite_ok) = false := by
      cases hok : overwrite_ok with
      | true => simp [hok]
      | false =>
        cases hsome : (lookupPath fs path).isSome with
        | true => exact absurd ⟨hsome, hok⟩ hno
        | false => simp [hsome]
    unfold Api.download
    rw [if_neg (by simp [hc])]
    rcases hfs : lookupPath fs path with _ | node
    · refine ⟨Api.insertFs (Api.insertFs (Api.insertFs fs path (.file ⟨"", now, now⟩))
          path (.file ⟨r.content, now, now⟩)) path (.file ⟨r.content, now, r.modified⟩),
        ⟨r.content, now, r.modified⟩, ?_, ?_, rfl, rfl, ?_, ?_⟩
      · simp only [Api.openWb, hfs, hr]
      · exact lookupPath_insertFs_self ..
      · rfl
      · intro q hq
        rw [lookupPath_insertFs_other _ _ _ _ hq, lookupPath_insertFs_other _ _ _ _ hq,
          lookupPath_insertFs_other _ _ _ _ hq]
    · cases node with
      | directory => exact absurd hfs hdir
      | file old =>
        refine ⟨Api.insertFs (Api.insertFs (Api.insertFs fs path
              (.file ⟨"", old.st_atime, now⟩)) path (.file ⟨r.content, old.st_atime, now⟩))
            path (.file ⟨r.content, old.st_atime, r.modified⟩),
          ⟨r.content, old.st_atime, r.modified⟩, ?_, ?_, rfl, rfl, ?_, ?_⟩
        · simp only [Api.openWb, hfs, hr]
        · exact lookupPath_insertFs_self ..
        · rfl
        · intro q hq
          rw [lookupPath_insertFs_other _ _ _ _ hq, lookupPath_insertFs_other _ _ _ _ hq,
            lookupPath_insertFs_other _ _ _ _ hq]

/-- Witness for C7 at a concrete state: downloading a.md into an empty
local tree writes the remote bytes and stamps the remote modified instant
42, keeping the fresh access time. -/
theorem c7_download_file_exists_rule_witness :
    ∃ fs' lf, Api.download [] [(["a.md"], ⟨"hello", 42⟩)] ["a.md"] true 5 = .ok fs'
      ∧ lookupPath fs' ["a.md"] = some (.file lf)
      ∧ lf.content = "hello"
      ∧ lf.st_mtime = 42
      ∧ lf.st_atime = (match lookupPath ([] : Api.LocalFS) ["a.md"] with
          | some (.file old) => old.st_atime
          | _ => (5 : Int))
      ∧ ∀ q, q ≠ ["a.md"] → lookupPath fs' q = lookupPath ([] : Api.LocalFS) q :=
  (c7_download_file_exists_rule [] [(["a.md"], ⟨"hello", 42⟩)] ["a.md"] true 5).2
    ⟨"hello", 42⟩ (by decide) (by decide) (by decide)

/-- C8: when the server keeps answering with the rate-limit status 429 and
the key is not cached, the request method re-issues the request exactly
three times after the initial attempt — the counter bound — and then
returns the last rate-limit response as-is (an ok result carrying the 429
response and a state whose request count grew by exactly four), neither
retrying further nor raising. -/
theorem c8_rate_limit_retries_bounded (server : Nat → Api.ReqKey → Api.Response)
    (st : Api.ApiState) (key : Api.ReqKey)
    (hOpen : st.clientOpen = true)
    (hMiss : Api.lookupCache st.cache key = none)
    (h429 : ∀ n k, (server n k).status = 429) :
    Api.method_ server st key
      = .ok (server (st.nreq + 3) key, { st with nreq := st.nreq + 4 })
    ∧ (server (st.nreq + 3) key).status = 429 := by
  refine ⟨?_, h429 _ _⟩
  unfold Api.method_
  rw [hMiss]
  simp only [hOpen, Bool.true_eq_false, if_false]
  simp [Api.rateLoop, h429]

/-- Witness for C8: a server that always answers 429 against a fresh state
makes the method return the fourth 429 response with four requests
issued. -/
theorem c8_rate_limit_retries_bounded_witness :
    Api.method_ (fun _ _ => ⟨429, none, ""⟩) ⟨true, [], 0⟩ ⟨"GET", "/me", none, none⟩
      = .ok (⟨429, none, ""⟩, ⟨true, [], 4⟩)
    ∧ (Api.Response.status ⟨429, none, ""⟩ = 429) :=
  c8_rate_limit_retries_bounded (fun _ _ => ⟨429, none, ""⟩) ⟨true, [], 0⟩
    ⟨"GET", "/me", none, none⟩ rfl rfl (fun _ _ => rfl)

/-- The request method only raises ClientClosed or APIRequestError; in
particular it never raises a file error. -/
theorem method_error_shape (server : Nat → Api.ReqKey → Api.Response)
    (st : Api.ApiState) (key : Api.ReqKey) (e : Api.ApiError) (st' : Api.ApiState)
    (h : Api.method_ server st key = .error (e, st')) :
    e = .clientClosed ∨ ∃ d, e = .requestError d := by
  unfold Api.method_ at h
  split at h
  · cases h
  · split at h
    · injection h with h1
      obtain ⟨he, _⟩ := Prod.mk.injEq .. |>.mp h1
      exact .inl he.symm
    · split at h
      · cases h
      · split at h
        · injection h with h1
          obtain ⟨he, _⟩ := Prod.mk.injEq .. |>.mp h1
          exact .inr ⟨_, he.symm⟩
        · cases h

/-- C9: executing an upload raises FileNotFoundError, with the collaborator
state untouched (same cache, same request count — so no remote request is
made and the remote state is unchanged), exactly when the local source
path does not exist as a regular file; the upload request is sent only
when the path exists and is a file. -/
theorem c9_upload_requires_local_file (server : Nat → Api.ReqKey → Api.Response)
    (st : Api.ApiState) (fs : Api.LocalFS) (pid : Nat) (path : FPath)
    (overwrite : Bool) :
    (Api.upload server st fs pid path overwrite = .error (.fileNotFound, st)
      ↔ Api.isLocalFile fs path = false)
    ∧ (Api.isLocalFile fs path = false →
        Api.upload server st fs pid path overwrite = .error (.fileNotFound, st)) := by
  have hforward : Api.isLocalFile fs path = false →
      Api.upload server st fs pid path overwrite = .error (.fileNotFound, st) := by
    intro hno
    unfold Api.isLocalFile at hno
    unfold Api.upload
    rcases hfs : lookupPath fs path with _ | node
    · rfl
    · cases node with
      | directory => rfl
      | file lf => rw [hfs] at hno; cases hno
  refine ⟨⟨?_, hforward⟩, hforward⟩
  intro hL
  unfold Api.isLocalFile
  rcases hfs : lookupPath fs path with _ | node
  · rfl
  · cases node with
    | directory => rfl
    | file lf =>
      exfalso
      unfold Api.upload at hL
      rw [hfs] at hL
      rcases hm : Api.method_ server st (Api.uploadKey pid path overwrite lf)
        with e | p
      · simp only [hm] at hL
        obtain ⟨e1, st1⟩ := e
        injection hL with h1
        obtain ⟨he, _⟩ := Prod.mk.injEq .. |>.mp h1
        rcases method_error_shape server st _ _ _ hm with hc | ⟨d, hd⟩
        · rw [hc] at he
          cases he
        · rw [hd] at he
          cases he
      · obtain ⟨resp, st1⟩ := p
        simp only [hm] at hL
        cases hL

/-- Witness for C9 at a concrete state: uploading a path that is absent
locally fails with FileNotFoundError and leaves the collaborator state
untouched. -/
theorem c9_upload_requires_local_file_witness :
    Api.upload (fun _ _ => ⟨200, none, ""⟩) ⟨true, [], 0⟩ [] 7 ["gone.md"] true
      = .error (.fileNotFound, ⟨true, [], 0⟩) :=
  (c9_upload_requires_local_file (fun _ _ => ⟨200, none, ""⟩) ⟨true, [], 0⟩ []
    7 ["gone.md"] true).2 (by decide)

/-- Storing into a cache that does not yet hold the key makes the key hit
with the stored response. -/
theorem lookupCache_insertCache_self (c : List (Api.ReqKey × Api.Response))
    (k : Api.ReqKey) (v : Api.Response) (h : Api.lookupCache c k = none) :
    Api.lookupCache (Api.insertCache c k v) k = some v := by
  induction c with
  | nil => simp [Api.insertCache, Api.lookupCache]
  | cons kv rest ih =>
    obtain ⟨k1, v1⟩ := kv
    simp only [Api.lookupCache] at h
    by_cases hk : k1 = k
    · rw [if_pos hk] at h
      cases h
    · rw [if_neg hk] at h
      simp only [Api.insertCache, List.cons_append] at ih ⊢
      simp only [Api.lookupCache, if_neg hk]
      exact ih h

/-- C10: the collaborator caches non-error responses under the
(method, url, params, files) key and serves identical calls from the
cache, and every mutating call ends with an empty cache. Precisely: a
cached key is answered from the cache with the state untouched (no network
request); a fresh key whose response is neither rate-limited nor an error
body is answered from the network, stored, and a second identical call —
under any server — returns the stored response without growing the request
count; and upload, move_on_cloud, create_project and render all leave an
empty cache when they return successfully, so the next read re-fetches. -/
theorem c10_cache_and_invalidation (server server2 : Nat → Api.ReqKey → Api.Response)
    (st : Api.ApiState) (key : Api.ReqKey) (r : Api.Response)
    (fs : Api.LocalFS) (pid : Nat) (path oldPath newPath : FPath)
    (overwrite : Bool) (isOk : Api.Response → Bool) (pname : String) :
    (Api.lookupCache st.cache key = some r →
      Api.method_ server st key = .ok (r, st))
    ∧ (st.clientOpen = true → Api.lookupCache st.cache key = none →
        (server st.nreq key).status ≠ 429 → (server st.nreq key).detail = none →
        Api.method_ server st key
          = .ok (server st.nreq key,
              { st with cache := Api.insertCache st.cache key (server st.nreq key),
                        nreq := st.nreq + 1 })
        ∧ Api.method_ server2
            { st with cache := Api.insertCache st.cache key (server st.nreq key),
                      nreq := st.nreq + 1 } key
          = .ok (server st.nreq key,
              { st with cache := Api.insertCache st.cache key (server st.nreq key),
                        nreq := st.nreq + 1 }))
    ∧ (∀ st', Api.upload server st fs pid path overwrite = .ok st' → st'.cache = [])
    ∧ (∀ b st', Api.move_on_cloud server isOk st pid oldPath newPath = .ok (b, st') →
        st'.cache = [])
    ∧ (∀ resp st', Api.create_project server st pname = .ok (resp, st') → st'.cache = [])
    ∧ (∀ resp st', Api.render server st pid = .ok (resp, st') → st'.cache = []) := by
  refine ⟨?_, ?_, ?_, ?_, ?_, ?_⟩
  · intro hhit
    unfold Api.method_
    rw [hhit]
  · intro hOpen hMiss hst hdet
    have hhit : Api.lookupCache (Api.insertCache st.cache key (server st.nreq key)) key
        = some (server st.nreq key) := lookupCache_insertCache_self _ _ _ hMiss
    constructor
    · unfold Api.method_
      rw [hMiss]
      simp only [hOpen, Bool.true_eq_false, if_false]
      unfold Api.rateLoop
      rw [if_neg hst]
      simp only [hdet]
    · unfold Api.method_
      simp only [hhit]
  · intro st' h
    unfold Api.upload at h
    split at h
    · split at h
      · cases h
      · injection h with h1
        rw [← h1]
    · cases h
  · intro b st' h
    unfold Api.move_on_cloud at h
    split at h
    · cases h
    · injection h with h1
      obtain ⟨_, h2⟩ := Prod.mk.injEq .. |>.mp h1
      rw [← h2]
  · intro resp st' h
    unfold Api.create_project at h
    split at h
    · cases h
    · injection h with h1
      obtain ⟨_, h2⟩ := Prod.mk.injEq .. |>.mp h1
      rw [← h2]
  · intro resp st' h
    unfold Api.render at h
    split at h
    · cases h
    · split at h
      · injection h with h1
        obtain ⟨_, h2⟩ := Prod.mk.injEq .. |>.mp h1
        rw [← h2]
      · cases h

/-- Witness for C10 at concrete data: a first read request on a fresh
state goes to the network and is cached, the identical second call is
served from the cache with the same state, and a successful upload leaves
an empty cache. -/
theorem c10_cache_and_invalidation_witness :
    (Api.method_ serverOkW stW keyW = .ok (respW, ⟨true, [(keyW, respW)], 1⟩)
      ∧ Api.method_ serverOkW ⟨true, [(keyW, respW)], 1⟩ keyW
          = .ok (respW, ⟨true, [(keyW, respW)], 1⟩))
    ∧ ∀ st', Api.upload serverOkW stW fsW 5 ["a.md"] true = .ok st' → st'.cache = [] :=
  ⟨(c10_cache_and_invalidation serverOkW serverOkW stW keyW respW fsW 5
      ["a.md"] [] [] true (fun _ => true) "p").2.1 rfl rfl (by decide) rfl,
   (c10_cache_and_invalidation serverOkW serverOkW stW keyW respW fsW 5
      ["a.md"] [] [] true (fun _ => true) "p").2.2.1⟩

/-- Every execution of a batch is either a recorded failure or a recorded
success, so the two records partition the batch. -/
theorem runBatch_length_partition (exec : Action → Except String Unit) :
    ∀ l : List Action,
      (runBatchFailures exec l).length + (runBatchSuccesses exec l).length = l.length := by
  intro l
  induction l with
  | nil => rfl
  | cons a rest ih =>
    unfold runBatchFailures runBatchSuccesses at *
    cases hx : exec a <;> simp [List.filterMap_cons, hx] <;> omega

/-- C3: the fan-in of the concurrent execution phase waits on every
dispatched action, in whatever order the executions complete, and collects
exactly the failing executions paired with their captured errors: the
collected report is stable (up to order) under the completion order, an
(action, error) pair is reported precisely when that action was in the
batch and its execution raised that error, and the failure and success
counts together exhaust the batch, so one action's failure never cancels
or skips another. -/
theorem c3_batch_failure_report (exec : Action → Except String Unit)
    (actions order : List Action) (h : order.Perm actions) :
    (runBatchFailures exec order).Perm (runBatchFailures exec actions)
    ∧ (∀ a e, (a, e) ∈ runBatchFailures exec order ↔
        (a ∈ actions ∧ exec a = .error e))
    ∧ (runBatchFailures exec order).length + (runBatchSuccesses exec order).length
        = actions.length := by
  refine ⟨h.filterMap _, ?_, ?_⟩
  · intro a e
    unfold runBatchFailures
    rw [List.mem_filterMap]
    constructor
    · rintro ⟨x, hx, hfx⟩
      cases hex : exec x with
      | error err =>
        rw [hex] at hfx
        simp only [Option.some.injEq, Prod.mk.injEq] at hfx
        obtain ⟨h3, h4⟩ := hfx
        subst h3
        subst h4
        exact ⟨h.mem_iff.mp hx, hex⟩
      | ok u =>
        rw [hex] at hfx
        simp at hfx
    · rintro ⟨ha, he⟩
      exact ⟨a, h.mem_iff.mpr ha, by rw [he]⟩
  · rw [runBatch_length_partition exec order, h.length_eq]

/-- Witness for C3: a concrete batch of ten actions of which exactly the
two upload actions fail; the instantiated report properties hold and the
computed report lists exactly those two failures with their errors. -/
theorem c3_batch_failure_report_witness :
    ((runBatchFailures batchExec batchActions).Perm (runBatchFailures batchExec batchActions)
      ∧ (∀ a e, (a, e) ∈ runBatchFailures batchExec batchActions ↔
          (a ∈ batchActions ∧ batchExec a = .error e))
      ∧ (runBatchFailures batchExec batchActions).length
          + (runBatchSuccesses batchExec batchActions).length = batchActions.length)
    ∧ runBatchFailures batchExec batchActions
        = [(.uploadFile 1 ["f4"] false, "remote error"),
           (.uploadFile 1 ["f7"] true, "remote error")]
    ∧ batchActions.length = 10 :=
  ⟨c3_batch_failure_report batchExec batchActions batchActions (List.Perm.refl _),
   by decide, by decide⟩

end MGostVerif
